import Mathlib

/-!
Verification development for the arxiv-tab-enhancer browser extension.

The definitions below are shallow embeddings of the JavaScript source:
* the content script (`parseAuthors`, `isAuthorMatch`, `getPreferredAuthor`,
  `generateAuthorColor`, `getShortAuthorName`, the title-building part of
  `updateTabTitle`),
* the background script (`getCachedData`, `cacheData`, `cleanupCache`,
  `manageAuthorGrouping`, `handleTabRemoval`),
* the popup (`clearCache`).

JavaScript `Map`s are modelled as association lists where `set` replaces an
existing key in place (preserving insertion order, as JS `Map.set` does) and
appends otherwise, and `delete` removes the key.  Machine arithmetic
(`charCodeAt`, `<<`, `&`, `Math.abs`) is modelled over `Int`/`Nat` with
explicit wrapping to 32-bit signed semantics.  All strings are treated at the
level of Unicode scalar values; the inputs of interest are ASCII, where this
coincides with JavaScript's UTF-16 code-unit view.
-/

namespace ArxivTabEnhancer

/-! ### JavaScript string helpers -/

/-- Whitespace as matched by the JS `\s` class and `String.prototype.trim`
(restricted to the ASCII range, which covers all inputs in this code base). -/
def isJsWs (c : Char) : Bool :=
  c = ' ' || c = '\t' || c = '\n' || c = '\r' || c = '\x0b' || c = '\x0c'

/-- JS `String.prototype.trim` on a character list. -/
def trimChars (l : List Char) : List Char :=
  ((l.dropWhile isJsWs).reverse.dropWhile isJsWs).reverse

/-- The `trim` operation lifted to `String`. -/
def trimJS (s : String) : String :=
  String.mk (trimChars s.data)

/-- Worker for collapsing whitespace runs: `prevWs` records whether the
previous character belonged to a whitespace run already emitted as `' '`. -/
def collapseGo : List Char → Bool → List Char
  | [], _ => []
  | c :: rest, prevWs =>
    if isJsWs c then
      if prevWs then collapseGo rest true else ' ' :: collapseGo rest true
    else
      c :: collapseGo rest false

/-- JS `replace(/\s+/g, ' ')`: every maximal whitespace run becomes one space. -/
def collapseWs (l : List Char) : List Char :=
  collapseGo l false

/-- JS `replace(/^(and|&)\s+/i, '')`: strip a leading "and" or "&" token
(case-insensitive) together with the whitespace run that follows it.  The
regex requires at least one whitespace character after the token. -/
def stripAnd (l : List Char) : List Char :=
  match l with
  | a :: b :: c :: d :: rest =>
    if a.toLower = 'a' && b.toLower = 'n' && c.toLower = 'd' && isJsWs d then
      List.dropWhile isJsWs (d :: rest)
    else if a = '&' && isJsWs b then
      List.dropWhile isJsWs (b :: c :: d :: rest)
    else
      l
  | a :: b :: rest =>
    if a = '&' && isJsWs b then List.dropWhile isJsWs (b :: rest) else l
  | _ => l

/-- JS `String.prototype.split` with a single-character separator: empty
input yields one empty fragment, adjacent separators yield empty fragments. -/
def splitOnChar (sep : Char) : List Char → List (List Char)
  | [] => [[]]
  | c :: rest =>
    if c = sep then [] :: splitOnChar sep rest
    else
      match splitOnChar sep rest with
      | [] => [[c]]
      | g :: gs => (c :: g) :: gs

/-- The per-fragment cleaning pipeline of `parseAuthors`:
`trim`, strip leading "and"/"&", collapse whitespace, `trim` again. -/
def cleanFragment (s : String) : String :=
  String.mk (trimChars (collapseWs (stripAnd (trimChars s.data))))

/-- The function `parseAuthors` from the content script: split on commas, clean each
fragment, drop fragments that became empty; `[]` for empty input. -/
def parseAuthors (s : String) : List String :=
  if s = "" then []
  else (((splitOnChar ',' s.data).map String.mk).map cleanFragment).filter
    (fun a => a.length > 0)

/-! ### Author matching and preferred-author selection (content script) -/

/-- Contiguous-sublist test on character lists, the model of JS
`String.prototype.includes`. -/
def isInfixB (needle : List Char) : List Char → Bool
  | [] => needle.isEmpty
  | c :: rest => needle.isPrefixOf (c :: rest) || isInfixB needle rest

/-- The `normalize` closure inside `isAuthorMatch`: lowercase, delete `.` and
`,`, trim. -/
def normalizeName (s : String) : String :=
  trimJS (String.mk ((s.data.map Char.toLower).filter (fun c => c ≠ '.' && c ≠ ',')))

/-- The function `isAuthorMatch` from the content script: either normalized name is a
substring of the other. -/
def isAuthorMatch (fullAuthorName likedAuthorName : String) : Bool :=
  let fullNorm := normalizeName fullAuthorName
  let likedNorm := normalizeName likedAuthorName
  isInfixB likedNorm.data fullNorm.data || isInfixB fullNorm.data likedNorm.data

/-- Inner loop of `getPreferredAuthor`: first entry of `authorsList` matching
the given liked author, in document order. -/
def findInAuthors : List String → String → Option String
  | [], _ => none
  | a :: rest, liked =>
    if isAuthorMatch a liked then some a else findInAuthors rest liked

/-- Outer loop of `getPreferredAuthor`: walk the liked authors in priority
order, returning the first hit in `authorsList`. -/
def findLikedMatch : List String → List String → Option String
  | [], _ => none
  | liked :: rest, authors =>
    match findInAuthors authors liked with
    | some a => some a
    | none => findLikedMatch rest authors

/-- The function `getPreferredAuthor` from the content script: empty author list gives
`none`; otherwise the first liked-author match, falling back to the first
author. -/
def getPreferredAuthor (authorsList likedAuthors : List String) : Option String :=
  match authorsList with
  | [] => none
  | a0 :: _ =>
    match findLikedMatch likedAuthors authorsList with
    | some a => some a
    | none => some a0

/-- Selection algorithm as the specification words it: iterate `preferred` in
priority order, for each iterate `authorsList` in document order under the
containment test, else fall back to the head of `authorsList`. -/
def selectSpec (authorsList preferred : List String) : Option String :=
  match preferred.findSome? (fun p => authorsList.find? (fun a => isAuthorMatch a p)) with
  | some a => some a
  | none => authorsList.head?

/-! ### Color generation (content script) -/

/-- Wrap an integer to 32-bit signed semantics, the effect of JS `x | 0`,
`x & x` and `<<` result conversion. -/
def toInt32 (x : Int) : Int :=
  (x + 2147483648) % 4294967296 - 2147483648

/-- One step of the hash loop in `generateAuthorColor`:
`hash = ((hash << 5) - hash) + char; hash = hash & hash;`. -/
def hashStep (h : Int) (c : Nat) : Int :=
  toInt32 (toInt32 (h * 32) - h + c)

/-- The full hash fold over the character codes of the name. -/
def jsHash (s : String) : Int :=
  s.data.foldl (fun h ch => hashStep h ch.toNat) 0

/-- The hash as the specification words it: `hash = hash*31 + charCode`,
wrapped to 32-bit signed semantics at each step. -/
def specHash (s : String) : Int :=
  s.data.foldl (fun h ch => toInt32 (31 * h + ch.toNat)) 0

/-- A CSS `hsl(h, s%, l%)` string. -/
def hslString (hue sat light : Nat) : String :=
  "hsl(" ++ toString hue ++ ", " ++ toString sat ++ "%, " ++ toString light ++ "%)"

/-- The color descriptor produced by `generateAuthorColor`. -/
structure ColorDescriptor where
  background : String
  border : String
  hue : Nat
  deriving Repr, DecidableEq

/-- Descriptor fields derived from an absolute hash value. -/
def descriptorOfAbs (a : Nat) : ColorDescriptor :=
  { background := hslString (a % 360) (45 + a % 20) (85 + a % 10)
    border := hslString (a % 360) (45 + a % 20 + 20) (85 + a % 10 - 30)
    hue := a % 360 }

/-- The function `generateAuthorColor` from the content script.  A JS-falsy name (absent
or empty string) yields `none`. -/
def generateAuthorColor (authorName : Option String) : Option ColorDescriptor :=
  match authorName with
  | none => none
  | some s =>
    if s = "" then none
    else some (descriptorOfAbs (jsHash s).natAbs)

/-! ### Title composition (content script `updateTabTitle`) -/

/-- JS `String.prototype.replace(',', '')` with a plain string pattern:
remove the first comma only. -/
def removeFirstComma : List Char → List Char
  | [] => []
  | c :: rest => if c = ',' then rest else c :: removeFirstComma rest

/-- The function `getShortAuthorName` from the content script.  `split(' ')` splits on
single spaces and empty parts are filtered out.  When the ≥3-token branch
indexes an empty `parts` array, JS yields `undefined`, which string
interpolation renders as `"undefined"`. -/
def getShortAuthorName (fullName : String) : String :=
  if fullName = "" then ""
  else
    let parts := ((splitOnChar ' ' fullName.data).map String.mk).filter
      (fun p => p.length > 0)
    if parts.length = 1 then parts.headD "undefined"
    else if parts.length = 2 then (parts.drop 1).headD "undefined"
    else if fullName.data.contains ',' then
      String.mk (removeFirstComma (parts.headD "undefined").data)
    else parts.getLastD "undefined"

/-- First match of the regex `\(([^)]+)\)`: scan left to right for a `(`
followed by at least one non-`)` character and then a `)`; return the
captured segment. -/
def parenExtract : List Char → Option (List Char)
  | [] => none
  | c :: rest =>
    if c = '(' then
      let seg := rest.takeWhile (fun x => x ≠ ')')
      if seg.isEmpty then parenExtract rest
      else if (rest.drop seg.length).isEmpty then parenExtract rest
      else some seg
    else parenExtract rest

/-- Category shortening in `updateTabTitle`: when the text contains both
parentheses, take the first parenthesized run (if the regex matches), then
cut before the first `.`. -/
def categoryShort (category : String) : String :=
  let c1 :=
    if category.data.contains '(' && category.data.contains ')' then
      match parenExtract category.data with
      | some seg => String.mk seg
      | none => category
    else category
  String.mk (c1.data.takeWhile (fun x => x ≠ '.'))

/-- The pure title-building core of `updateTabTitle` in the content script:
prepend the short author form when the author is JS-truthy, truncate the
result to 57 characters plus `"..."` when it exceeds 60, then prepend the
category tag when the category is JS-truthy. -/
def updateTabTitle (title : String) (firstAuthor category : Option String) : String :=
  let t1 :=
    match firstAuthor with
    | some a => if a = "" then title else getShortAuthorName a ++ ": " ++ title
    | none => title
  let t2 := if t1.length > 60 then String.mk (t1.data.take 57) ++ "..." else t1
  match category with
  | some c => if c = "" then t2 else "[" ++ categoryShort c ++ "] " ++ t2
  | none => t2

/-! ### Association-list model of JS `Map` and `chrome.storage.local`

`setAssoc` replaces an existing key in place (JS `Map.set` keeps the original
insertion position) and appends otherwise; `eraseKey` removes the key.  Since
JS maps/objects cannot hold duplicate keys, removal is modelled as a filter.
-/

/-- First value bound to a key. -/
def lookupAssoc {κ α : Type} [DecidableEq κ] (l : List (κ × α)) (k : κ) : Option α :=
  match l.find? (fun kv => kv.1 = k) with
  | some kv => some kv.2
  | none => none

/-- JS `Map.set` / object key assignment. -/
def setAssoc {κ α : Type} [DecidableEq κ] : List (κ × α) → κ → α → List (κ × α)
  | [], k, v => [(k, v)]
  | kv :: rest, k, v =>
    if kv.1 = k then (k, v) :: rest else kv :: setAssoc rest k v

/-- JS `Map.delete` / `chrome.storage.local.remove` for one key. -/
def eraseKey {κ α : Type} [DecidableEq κ] (l : List (κ × α)) (k : κ) : List (κ × α) :=
  l.filter (fun kv => kv.1 ≠ k)

/-! ### Document cache (background script) -/

/-- A paper record as passed around the scripts.  The payload stands for the
title/author fields, which the cache moves around opaquely; `timestamp` is
`none` until the storage write spreads `timestamp: Date.now()` over it. -/
structure PaperData where
  id : String
  payload : Nat
  timestamp : Option Nat
  deriving Repr, DecidableEq

/-- A value held in `chrome.storage.local`: either a cached paper record or
the user's liked-authors list. -/
inductive StorageVal where
  | record (pd : PaperData)
  | likedAuthors (l : List String)
  deriving Repr, DecidableEq

/-- The `timestamp` field read off a storage value; `none` models the JS
`undefined` read from a value that has no such field. -/
def tsOf : StorageVal → Option Nat
  | .record pd => pd.timestamp
  | .likedAuthors _ => none

/-- The two cache tiers of the background script: the in-process `paperCache`
map (keyed by paper id) and `chrome.storage.local` (keyed by `arxiv_`-prefixed
strings, shared with other persisted keys). -/
structure CacheState where
  paperCache : List (String × StorageVal)
  storage : List (String × StorageVal)
  deriving Repr, DecidableEq

/-- 30 days in milliseconds. -/
def maxAge : Nat := 30 * 24 * 60 * 60 * 1000

/-- The storage key for a paper id. -/
def cacheKeyOf (paperId : String) : String := "arxiv_" ++ paperId

/-- Is a stored value fresh at time `now`?  `Date.now() - data.timestamp <
maxAge`; a missing timestamp gives `NaN < maxAge`, which is false. -/
def isFresh (now : Nat) (v : StorageVal) : Bool :=
  match tsOf v with
  | some ts => now - ts < maxAge
  | none => false

/-- The function `getCachedData` from the background script: memory tier first; on miss
consult storage, promoting fresh entries into memory and deleting stale ones.
Returns the result JS would return together with the updated state. -/
def getCachedData (st : CacheState) (now : Nat) (paperId : String) :
    Option StorageVal × CacheState :=
  match lookupAssoc st.paperCache paperId with
  | some v => (some v, st)
  | none =>
    match lookupAssoc st.storage (cacheKeyOf paperId) with
    | some v =>
      if isFresh now v then
        (some v, { st with paperCache := setAssoc st.paperCache paperId v })
      else
        (none, { st with storage := eraseKey st.storage (cacheKeyOf paperId) })
    | none => (none, st)

/-- The test `key.startsWith('arxiv_')`, the persistence-key predicate used by the cache
cleanup, the popup cache clearing and the stats code. -/
def startsWithArxiv (k : String) : Bool :=
  "arxiv_".data.isPrefixOf k.data

/-- The `arxiv_`-prefixed entries of storage, in storage order. -/
def arxivEntries (storage : List (String × StorageVal)) : List (String × StorageVal) :=
  storage.filter (fun kv => startsWithArxiv kv.1)

/-- Sort key used by the storage cleanup: `allData[key].timestamp || 0`. -/
def tsKey (kv : String × StorageVal) : Nat :=
  (tsOf kv.2).getD 0

/-- The function `cleanupCache` from the background script: if the memory tier holds more
than 100 entries, delete the keys of its first 20 entries (insertion order);
if storage holds more than 200 `arxiv_` entries, sort them by timestamp
ascending and remove the first 50 keys. -/
def cleanupCache (st : CacheState) : CacheState :=
  let mem :=
    if 100 < st.paperCache.length then
      ((st.paperCache.take 20).map Prod.fst).foldl eraseKey st.paperCache
    else st.paperCache
  let ax := arxivEntries st.storage
  let storage1 :=
    if 200 < ax.length then
      let sorted := ax.mergeSort (fun a b => tsKey a ≤ tsKey b)
      ((sorted.take 50).map Prod.fst).foldl eraseKey st.storage
    else st.storage
  { paperCache := mem, storage := storage1 }

/-- The function `cacheData` from the background script: write `{...paperData, timestamp:
now}` to storage under `arxiv_<id>`, keep the record in the memory tier under
the bare id, then run the cleanup pass. -/
def cacheData (st : CacheState) (pd : PaperData) (now : Nat) : CacheState :=
  cleanupCache
    { paperCache := setAssoc st.paperCache pd.id (.record pd)
      storage := setAssoc st.storage (cacheKeyOf pd.id) (.record { pd with timestamp := some now }) }

/-! ### Popup cache clearing -/

/-- The function `clearCache` from the popup: gather the `arxiv_`-prefixed storage keys
and, when there are any, remove exactly those keys. -/
def clearCache (storage : List (String × StorageVal)) : List (String × StorageVal) :=
  let arxivKeys := (arxivEntries storage).map Prod.fst
  if arxivKeys.isEmpty then storage
  else arxivKeys.foldl eraseKey storage

/-! ### Grouping coordinator (background script)

The tab-organizing host surface is modelled explicitly: `groups` maps a group
id to its member tabs.  `chrome.tabs.group` moves a tab out of any group it
was in; with a `groupId` it fails when that group no longer exists, which the
source catches by deleting the stale author binding and calling itself again.
That recursion is modelled with explicit fuel; the retried call finds no
binding and takes the creation path, so fuel 2 realizes the source behavior.
-/

structure World where
  tabAuthors : List (Nat × String)
  authorGroups : List (String × Nat)
  groups : List (Nat × List Nat)
  nextGroupId : Nat
  deriving Repr, DecidableEq

/-- Remove a tab from every group's member list (a tab lives in at most one
group, so this is what moving it does on the host side). -/
def eraseTabFromGroups (groups : List (Nat × List Nat)) (tabId : Nat) :
    List (Nat × List Nat) :=
  groups.map (fun g => (g.1, g.2.filter (fun t => t ≠ tabId)))

/-- The function `manageAuthorGrouping` with explicit fuel for the stale-binding retry. -/
def assignFuel : Nat → World → Nat → String → World
  | 0, w, _, _ => w
  | Nat.succ fuel, w, tabId, author =>
    let w1 := { w with tabAuthors := setAssoc w.tabAuthors tabId author }
    match lookupAssoc w1.authorGroups author with
    | none =>
      let gid := w1.nextGroupId
      { w1 with
        groups := setAssoc (eraseTabFromGroups w1.groups tabId) gid [tabId]
        authorGroups := setAssoc w1.authorGroups author gid
        nextGroupId := gid + 1 }
    | some gid =>
      match lookupAssoc w1.groups gid with
      | some members =>
        { w1 with
          groups := setAssoc (eraseTabFromGroups w1.groups tabId) gid
            (members.filter (fun t => t ≠ tabId) ++ [tabId]) }
      | none =>
        assignFuel fuel { w1 with authorGroups := eraseKey w1.authorGroups author }
          tabId author

/-- The function `manageAuthorGrouping` from the background script: a JS-falsy author
(absent or empty) returns immediately; otherwise record the tab-author
binding and group the tab, recreating the group once if it went stale. -/
def manageAuthorGrouping (w : World) (tabId : Nat) (firstAuthor : Option String) : World :=
  match firstAuthor with
  | none => w
  | some author => if author = "" then w else assignFuel 2 w tabId author

/-- The host surface's part of closing a tab: the tab leaves its group.
Empty groups are kept in the map, so the handler's member query sees `[]`. -/
def chromeRemoveTab (w : World) (tabId : Nat) : World :=
  { w with groups := eraseTabFromGroups w.groups tabId }

/-- The function `handleTabRemoval` from the background script: drop the tab-author
binding; if the bound group exists and now has no member tabs (or is gone
entirely, the catch branch), drop the author-group binding as well. -/
def handleTabRemoval (w : World) (tabId : Nat) : World :=
  match lookupAssoc w.tabAuthors tabId with
  | none => w
  | some author =>
    let w1 := { w with tabAuthors := eraseKey w.tabAuthors tabId }
    match lookupAssoc w1.authorGroups author with
    | none => w1
    | some gid =>
      match lookupAssoc w1.groups gid with
      | none => { w1 with authorGroups := eraseKey w1.authorGroups author }
      | some members =>
        if members.length = 0 then
          { w1 with authorGroups := eraseKey w1.authorGroups author }
        else w1

/-- A tab closing: the host removes the tab from its group, then the
`onRemoved` listener runs. -/
def onTabRemoved (w : World) (tabId : Nat) : World :=
  handleTabRemoval (chromeRemoveTab w tabId) tabId

/-! ### Derived notions used in the statements -/

/-- A parsed author entry is clean: nonempty, and neither its first nor its
last character is whitespace. -/
def cleanEntryB (a : String) : Bool :=
  !a.data.isEmpty && !isJsWs (a.data.headD 'x') && !isJsWs (a.data.getLastD 'x')

/-- Number of entries bound to a key. -/
def countKey {κ α : Type} [DecidableEq κ] (l : List (κ × α)) (k : κ) : Nat :=
  (l.filter (fun kv => kv.1 = k)).length

/-- The keys of an association list are pairwise distinct (an invariant of
every reachable JS `Map`/storage object). -/
def nodupKeys {κ α : Type} [DecidableEq κ] (l : List (κ × α)) : Prop :=
  (l.map Prod.fst).Nodup

/-- The `arxiv_` entries of a cache state's storage sorted by stored
timestamp, as the cleanup pass orders them before evicting. -/
def sortedArxiv (st : CacheState) : List (String × StorageVal) :=
  (arxivEntries st.storage).mergeSort (fun a b => tsKey a ≤ tsKey b)

/-- Sequentially insert one record per id into an initially empty cache. -/
def insertRun (ids : List String) (now : Nat) : CacheState :=
  ids.foldl (fun st id => cacheData st ⟨id, 0, none⟩ now) ⟨[], []⟩

/-- Two consecutive `assign` calls for the same tab and author. -/
def assignTwice (w : World) (tabId : Nat) (author : String) : World :=
  manageAuthorGrouping (manageAuthorGrouping w tabId (some author)) tabId (some author)

/-! ### Association-list lemmas -/

section AssocLemmas

variable {κ α : Type} [DecidableEq κ]

theorem lookupAssoc_nil (k : κ) : lookupAssoc ([] : List (κ × α)) k = none := rfl

theorem lookupAssoc_cons (kv : κ × α) (l : List (κ × α)) (k : κ) :
    lookupAssoc (kv :: l) k = if kv.1 = k then some kv.2 else lookupAssoc l k := by
  by_cases h : kv.1 = k <;> simp [lookupAssoc, List.find?, h]

theorem lookupAssoc_setAssoc_self (l : List (κ × α)) (k : κ) (v : α) :
    lookupAssoc (setAssoc l k v) k = some v := by
  induction l with
  | nil => simp [setAssoc, lookupAssoc_cons]
  | cons kv rest ih =>
    by_cases h : kv.1 = k
    · simp [setAssoc, h, lookupAssoc_cons]
    · simp [setAssoc, h, lookupAssoc_cons, ih]

theorem lookupAssoc_setAssoc_ne (l : List (κ × α)) (k k' : κ) (v : α) (h : k' ≠ k) :
    lookupAssoc (setAssoc l k v) k' = lookupAssoc l k' := by
  induction l with
  | nil => simp [setAssoc, lookupAssoc_cons, lookupAssoc_nil, Ne.symm h]
  | cons kv rest ih =>
    by_cases hk : kv.1 = k
    · subst hk
      simp [setAssoc, lookupAssoc_cons, Ne.symm h]
    · simp [setAssoc, hk, lookupAssoc_cons, ih]

theorem eraseKey_nil (k : κ) : eraseKey ([] : List (κ × α)) k = [] := rfl

theorem eraseKey_cons (kv : κ × α) (l : List (κ × α)) (k : κ) :
    eraseKey (kv :: l) k = if kv.1 = k then eraseKey l k else kv :: eraseKey l k := by
  by_cases h : kv.1 = k <;> simp [eraseKey, List.filter_cons, h]

theorem lookupAssoc_eraseKey_self (l : List (κ × α)) (k : κ) :
    lookupAssoc (eraseKey l k) k = none := by
  induction l with
  | nil => rfl
  | cons kv rest ih =>
    rw [eraseKey_cons]
    by_cases h : kv.1 = k
    · simp [h, ih]
    · simp [h, lookupAssoc_cons, ih]

theorem lookupAssoc_eraseKey_ne (l : List (κ × α)) (k k' : κ) (h : k' ≠ k) :
    lookupAssoc (eraseKey l k') k = lookupAssoc l k := by
  induction l with
  | nil => rfl
  | cons kv rest ih =>
    rw [eraseKey_cons]
    by_cases hk : kv.1 = k'
    · have h2 : ¬ kv.1 = k := by rw [hk]; exact h
      simp [hk, lookupAssoc_cons, h2, h, ih]
    · simp [hk, lookupAssoc_cons, ih]

theorem lookupAssoc_eraseKey_none (l : List (κ × α)) (k k' : κ)
    (h : lookupAssoc l k = none) : lookupAssoc (eraseKey l k') k = none := by
  by_cases hk : k = k'
  · subst hk; exact lookupAssoc_eraseKey_self l k
  · rw [lookupAssoc_eraseKey_ne l k k' (Ne.symm hk)]; exact h

theorem lookupAssoc_eq_none_of_not_mem_keys (l : List (κ × α)) (k : κ)
    (h : k ∉ l.map Prod.fst) : lookupAssoc l k = none := by
  induction l with
  | nil => rfl
  | cons kv rest ih =>
    simp only [List.map_cons, List.mem_cons] at h
    push_neg at h
    simp [lookupAssoc_cons, Ne.symm h.1, ih h.2]

theorem lookupAssoc_isSome_of_mem_keys (l : List (κ × α)) (k : κ)
    (h : k ∈ l.map Prod.fst) : (lookupAssoc l k).isSome := by
  induction l with
  | nil => simp at h
  | cons kv rest ih =>
    simp only [List.map_cons, List.mem_cons] at h
    by_cases hk : kv.1 = k
    · simp [lookupAssoc_cons, hk]
    · rcases h with h | h
      · exact absurd h.symm hk
      · simp [lookupAssoc_cons, hk, ih h]

theorem setAssoc_of_not_mem_keys (l : List (κ × α)) (k : κ) (v : α)
    (h : k ∉ l.map Prod.fst) : setAssoc l k v = l ++ [(k, v)] := by
  induction l with
  | nil => rfl
  | cons kv rest ih =>
    simp only [List.map_cons, List.mem_cons] at h
    push_neg at h
    simp [setAssoc, Ne.symm h.1, ih h.2]

theorem eraseKey_of_not_mem_keys (l : List (κ × α)) (k : κ)
    (h : k ∉ l.map Prod.fst) : eraseKey l k = l := by
  induction l with
  | nil => rfl
  | cons kv rest ih =>
    simp only [List.map_cons, List.mem_cons] at h
    push_neg at h
    rw [eraseKey_cons, if_neg (Ne.symm h.1), ih h.2]

theorem mem_keys_setAssoc (l : List (κ × α)) (k : κ) (v : α) (k' : κ)
    (hm : k' ∈ (setAssoc l k v).map Prod.fst) : k' ∈ l.map Prod.fst ∨ k' = k := by
  induction l with
  | nil =>
    simp only [setAssoc, List.map_cons, List.map_nil, List.mem_singleton] at hm
    exact Or.inr hm
  | cons kv rest ih =>
    by_cases hk : kv.1 = k
    · subst hk
      simp only [setAssoc, if_pos rfl, List.map_cons, List.mem_cons, if_true,
        eq_self_iff_true] at hm ⊢
      tauto
    · simp only [setAssoc, hk, if_false, List.map_cons, List.mem_cons] at hm ⊢
      rcases hm with hm | hm
      · tauto
      · rcases ih hm with h2 | h2 <;> tauto

theorem nodupKeys_setAssoc (l : List (κ × α)) (k : κ) (v : α)
    (h : nodupKeys l) : nodupKeys (setAssoc l k v) := by
  induction l with
  | nil => simp [setAssoc, nodupKeys]
  | cons kv rest ih =>
    unfold nodupKeys at h ⊢
    simp only [List.map_cons, List.nodup_cons] at h
    by_cases hk : kv.1 = k
    · subst hk
      simp [setAssoc, List.nodup_cons, h.1, h.2]
    · have hrest := ih h.2
      unfold nodupKeys at hrest
      simp only [setAssoc, hk, if_false, List.map_cons, List.nodup_cons]
      refine ⟨?_, hrest⟩
      intro hmem
      rcases mem_keys_setAssoc rest k v kv.1 hmem with h2 | h2
      · exact h.1 h2
      · exact hk h2

theorem nodupKeys_eraseKey (l : List (κ × α)) (k : κ)
    (h : nodupKeys l) : nodupKeys (eraseKey l k) := by
  unfold nodupKeys at h ⊢
  exact h.sublist ((List.filter_sublist l).map Prod.fst)

theorem countKey_eq_one_of_nodup (l : List (κ × α)) (k : κ)
    (hn : nodupKeys l) (hs : (lookupAssoc l k).isSome) : countKey l k = 1 := by
  induction l with
  | nil => simp [lookupAssoc_nil] at hs
  | cons kv rest ih =>
    unfold nodupKeys at hn
    simp only [List.map_cons, List.nodup_cons] at hn
    by_cases hk : kv.1 = k
    · subst hk
      have hzero : rest.filter (fun kv2 => decide (kv2.1 = kv.1)) = [] := by
        rw [List.filter_eq_nil_iff]
        intro a ha
        simp only [decide_eq_true_eq]
        intro hcontra
        exact hn.1 (hcontra ▸ List.mem_map_of_mem Prod.fst ha)
      simp [countKey, List.filter_cons, hzero]
    · rw [lookupAssoc_cons, if_neg hk] at hs
      have := ih hn.2 hs
      simpa [countKey, List.filter_cons, hk] using this

end AssocLemmas


/-! ### C1: title composition -/

/-- Claim C1: `compose` builds the display title in this exact order: the short
author form is prepended first, then the author-augmented string is truncated
to 57 characters plus `"..."` when it exceeds 60, and only then is the
category tag `[{tag}]` prepended, where the tag is the parenthesized content
of the category (when present) cut before its first `.`.  Hence the category
prefix never counts against the 60-character budget (first conjunct: for any
nonempty category the result is exactly the category prefix glued onto the
category-free composition), and on the spec's example the result starts with
`"[cs] Smith: "` while the author-augmented portion alone is 60 characters. -/
theorem c1_compose_order_and_budget :
    (∀ t a c, c ≠ "" →
      updateTabTitle t a (some c) = "[" ++ categoryShort c ++ "] " ++ updateTabTitle t a none)
    ∧ "[cs] Smith: ".data.isPrefixOf
        (updateTabTitle
          "A Very Long Paper Title That Exceeds The Sixty Character Budget By A Good Margin"
          (some "Bob Smith") (some "Computation and Language (cs.CL)")).data = true
    ∧ (updateTabTitle
          "A Very Long Paper Title That Exceeds The Sixty Character Budget By A Good Margin"
          (some "Bob Smith") none).length = 60 := by
  refine ⟨?_, by decide, by decide⟩
  intro t a c hc
  simp only [updateTabTitle, if_neg hc]

/-- Witness for C1 at a concrete title, author and category. -/
theorem c1_compose_order_and_budget_witness :
    ("Computation and Language (cs.CL)" : String) ≠ ""
    ∧ updateTabTitle "T" (some "Bob Smith") (some "Computation and Language (cs.CL)") =
        "[" ++ categoryShort "Computation and Language (cs.CL)" ++ "] " ++
          updateTabTitle "T" (some "Bob Smith") none :=
  ⟨by decide, c1_compose_order_and_budget.1 "T" (some "Bob Smith")
    "Computation and Language (cs.CL)" (by decide)⟩

/-! ### C2: preferred-author selection -/

theorem findInAuthors_eq_find? (authors : List String) (liked : String) :
    findInAuthors authors liked = authors.find? (fun a => isAuthorMatch a liked) := by
  induction authors with
  | nil => rfl
  | cons a rest ih =>
    by_cases h : isAuthorMatch a liked
    · simp [findInAuthors, List.find?_cons, h]
    · simp only [findInAuthors, if_neg h, List.find?_cons]
      simp [h, ih]

theorem findLikedMatch_eq_findSome? (pref authors : List String) :
    findLikedMatch pref authors =
      pref.findSome? (fun p => authors.find? (fun a => isAuthorMatch a p)) := by
  induction pref with
  | nil => rfl
  | cons p rest ih =>
    simp only [findLikedMatch, findInAuthors_eq_find?, List.findSome?_cons, ih]
    cases authors.find? (fun a => isAuthorMatch a p) <;> simp

/-- Claim C2: `select` iterates the preferred names in priority order and, for
each, iterates `authorsList` in document order, returning the first entry
matching under the containment test; with no match it falls back to
`authorsList[0]`, or absent for an empty list (first conjunct: the code
function equals the specification's algorithm).  On the spec's example the
liked surname "Smith" picks `"Bob Smith"`, not `"Alice Johnson"`. -/
theorem c2_preferred_author_selection :
    (∀ authorsList preferred,
      getPreferredAuthor authorsList preferred = selectSpec authorsList preferred)
    ∧ getPreferredAuthor ["Alice Johnson", "Bob Smith", "Carol Davis"] ["Smith"] =
        some "Bob Smith" := by
  refine ⟨?_, by decide⟩
  intro al pref
  cases al with
  | nil =>
    have h0 : List.findSome? (fun _ : String => (none : Option String)) pref = none := by
      induction pref with
      | nil => rfl
      | cons p rest ih => simp [List.findSome?_cons, ih]
    simp [getPreferredAuthor, selectSpec, h0]
  | cons a0 rest =>
    simp only [getPreferredAuthor, selectSpec, findLikedMatch_eq_findSome?]
    cases pref.findSome? (fun p => (a0 :: rest).find? (fun a => isAuthorMatch a p)) <;> simp

/-! ### C3: author parsing -/

theorem head?_dropWhile_false {α : Type} (p : α → Bool) (l : List α) (c : α)
    (h : (l.dropWhile p).head? = some c) : p c = false := by
  have h2 := List.head?_dropWhile_not p l
  rw [h] at h2
  exact h2

theorem getLast?_dropWhile {α : Type} (p : α → Bool) (l : List α)
    (h : l.dropWhile p ≠ []) : (l.dropWhile p).getLast? = l.getLast? := by
  induction l with
  | nil => simp [List.dropWhile] at h
  | cons c rest ih =>
    by_cases hp : p c
    · rw [List.dropWhile_cons, if_pos hp] at h ⊢
      have hrest : rest ≠ [] := by
        intro he
        subst he
        simp [List.dropWhile] at h
      rw [ih h]
      obtain ⟨x, xs, rfl⟩ := List.exists_cons_of_ne_nil hrest
      exact (List.getLast?_cons_cons).symm
    · rw [List.dropWhile_cons, if_neg hp]

theorem trimChars_clean (l : List Char) (h : trimChars l ≠ []) :
    isJsWs ((trimChars l).headD 'x') = false
    ∧ isJsWs ((trimChars l).getLastD 'x') = false := by
  unfold trimChars at h ⊢
  have hXne : (l.dropWhile isJsWs).reverse.dropWhile isJsWs ≠ [] := by
    intro he
    rw [he] at h
    exact h rfl
  constructor
  · rw [List.headD_eq_head?, List.head?_reverse]
    rw [getLast?_dropWhile isJsWs _ hXne, List.getLast?_reverse]
    cases hc : (l.dropWhile isJsWs).head? with
    | none =>
      rw [List.head?_eq_none_iff] at hc
      rw [hc] at hXne
      simp [List.dropWhile] at hXne
    | some c =>
      rw [Option.getD_some]
      exact head?_dropWhile_false isJsWs l c hc
  · rw [List.getLastD_eq_getLast?, List.getLast?_reverse]
    cases hc : ((l.dropWhile isJsWs).reverse.dropWhile isJsWs).head? with
    | none =>
      rw [List.head?_eq_none_iff] at hc
      exact absurd hc hXne
    | some c =>
      rw [Option.getD_some]
      exact head?_dropWhile_false isJsWs _ c hc

/-- Claim C3: `parse` splits on commas, trims, strips a leading "and"/"&"
token, collapses whitespace runs, trims again, and drops empty fragments;
hence every returned entry is nonempty with no leading or trailing
whitespace (first conjunct), and the spec's example parses to the three
clean names (second conjunct). -/
theorem c3_parse_authors_clean :
    (∀ s, (parseAuthors s).all cleanEntryB = true)
    ∧ parseAuthors "Alice Johnson, Bob Smith, and Carol Davis" =
        ["Alice Johnson", "Bob Smith", "Carol Davis"] := by
  refine ⟨?_, by decide⟩
  intro s
  rw [List.all_eq_true]
  intro a ha
  unfold parseAuthors at ha
  by_cases hs : s = ""
  · rw [if_pos hs] at ha
    simp at ha
  · rw [if_neg hs, List.mem_filter] at ha
    obtain ⟨hmem, hlen⟩ := ha
    rw [List.mem_map] at hmem
    obtain ⟨b, _, rfl⟩ := hmem
    have hne : trimChars (collapseWs (stripAnd (trimChars b.data))) ≠ [] := by
      intro he
      unfold cleanFragment at hlen
      rw [he] at hlen
      simp [String.length] at hlen
    have hcl := trimChars_clean _ hne
    simp only [List.headD_eq_head?, List.getLastD_eq_getLast?] at hcl
    unfold cleanFragment cleanEntryB
    simp [List.isEmpty_iff, hne, hcl.1, hcl.2]

/-! ### C4: color generation -/

theorem toInt32_add_left (a b : Int) : toInt32 (toInt32 a + b) = toInt32 (a + b) := by
  unfold toInt32
  omega

theorem hashStep_eq_spec (h : Int) (c : Nat) : hashStep h c = toInt32 (31 * h + c) := by
  unfold hashStep
  have h1 : toInt32 (toInt32 (h * 32) - h + c) = toInt32 (h * 32 - h + c) := by
    have := toInt32_add_left (h * 32) (-h + c)
    calc toInt32 (toInt32 (h * 32) - h + c)
        = toInt32 (toInt32 (h * 32) + (-h + c)) := by ring_nf
      _ = toInt32 (h * 32 + (-h + c)) := this
      _ = toInt32 (h * 32 - h + c) := by ring_nf
  rw [h1]
  congr 1
  ring

/-- Claim C4, counterexample: the claim asserts that every author-name string
yields the fold-derived descriptor, but the source treats the empty string as
JS-falsy and returns `null`: `generateAuthorColor (some "")` is absent, not
the descriptor the 32-bit fold (hash 0, hue 0) would give. -/
theorem c4_colorFor_counterexample :
    generateAuthorColor (some "") = none
    ∧ generateAuthorColor (some "") ≠ some (descriptorOfAbs (specHash "").natAbs) := by
  refine ⟨rfl, ?_⟩
  intro h
  simp [generateAuthorColor] at h

/-- Claim C4, amended: `colorFor` is a pure function: an absent or empty name
yields an absent descriptor, the code's hash loop equals the claimed
`hash*31 + charCode` fold in 32-bit signed arithmetic, and for every
nonempty name the descriptor is derived from the absolute hash by
`hue = |h| % 360`, `saturation = 45 + |h| % 20`, `lightness = 85 + |h| % 10`,
with the border tone using `saturation+20` and `lightness-30`.  Identical
names therefore yield bit-identical descriptors. -/
theorem c4_colorFor_deterministic_formula :
    generateAuthorColor none = none
    ∧ generateAuthorColor (some "") = none
    ∧ (∀ s, jsHash s = specHash s)
    ∧ (∀ s, s ≠ "" →
        generateAuthorColor (some s) = some (descriptorOfAbs (specHash s).natAbs)) := by
  have hfold : ∀ s, jsHash s = specHash s := by
    intro s
    unfold jsHash specHash
    have hfun : (fun (h : Int) (ch : Char) => hashStep h ch.toNat) =
        (fun (h : Int) (ch : Char) => toInt32 (31 * h + ch.toNat)) := by
      funext h ch
      exact hashStep_eq_spec h ch.toNat
    rw [hfun]
  refine ⟨rfl, rfl, hfold, ?_⟩
  intro s hs
  simp [generateAuthorColor, hs, hfold s]

/-- Witness for the amended C4 at a concrete name. -/
theorem c4_colorFor_deterministic_formula_witness :
    ("Bob Smith" : String) ≠ ""
    ∧ generateAuthorColor (some "Bob Smith") =
        some (descriptorOfAbs (specHash "Bob Smith").natAbs) :=
  ⟨by decide, c4_colorFor_deterministic_formula.2.2.2 "Bob Smith" (by decide)⟩

/-! ### C5: two-tier cache reads -/

/-- Claim C5, counterexample: a record written at time 0 and read at time
`maxAge` is exactly 30 days old, hence "not older than 30 days", yet the
source's strict `now - timestamp < maxAge` check fails: the read returns
absent and deletes the durable entry instead of promoting it. -/
theorem c5_get_counterexample :
    maxAge - 0 ≤ maxAge
    ∧ (getCachedData ⟨[], [("arxiv_x", .record ⟨"x", 0, some 0⟩)]⟩ maxAge "x").1 = none
    ∧ lookupAssoc
        (getCachedData ⟨[], [("arxiv_x", .record ⟨"x", 0, some 0⟩)]⟩ maxAge "x").2.storage
        "arxiv_x" = none := by
  refine ⟨Nat.le_refl _, ?_, ?_⟩ <;> decide

/-- Claim C5, amended: `get(id)` returns the fast-tier entry when present;
otherwise, if the durable tier holds a record strictly younger than 30 days,
it promotes that record into the fast tier and returns it; if the record's
age is 30 days or more (or it carries no timestamp), it deletes the durable
entry and returns absent. -/
theorem c5_get_cached_data :
    (∀ st now id v, lookupAssoc st.paperCache id = some v →
      getCachedData st now id = (some v, st))
    ∧ (∀ st now id v ts, lookupAssoc st.paperCache id = none →
        lookupAssoc st.storage (cacheKeyOf id) = some v →
        tsOf v = some ts → now - ts < maxAge →
        (getCachedData st now id).1 = some v
        ∧ lookupAssoc (getCachedData st now id).2.paperCache id = some v
        ∧ (getCachedData st now id).2.storage = st.storage)
    ∧ (∀ st now id v ts, lookupAssoc st.paperCache id = none →
        lookupAssoc st.storage (cacheKeyOf id) = some v →
        tsOf v = some ts → maxAge ≤ now - ts →
        (getCachedData st now id).1 = none
        ∧ lookupAssoc (getCachedData st now id).2.storage (cacheKeyOf id) = none) := by
  refine ⟨?_, ?_, ?_⟩
  · intro st now id v h
    simp [getCachedData, h]
  · intro st now id v ts hmem hsto hts hfresh
    have hf : isFresh now v = true := by
      simp [isFresh, hts, hfresh]
    simp [getCachedData, hmem, hsto, hf, lookupAssoc_setAssoc_self]
  · intro st now id v ts hmem hsto hts hstale
    have hf : isFresh now v = false := by
      simp [isFresh, hts]
      omega
    simp [getCachedData, hmem, hsto, hf, lookupAssoc_eraseKey_self]

/-- Witness for the amended C5: a fresh durable record is promoted and
returned. -/
theorem c5_get_cached_data_witness :
    lookupAssoc (CacheState.mk [] [("arxiv_x", .record ⟨"x", 7, some 5⟩)]).paperCache "x" = none
    ∧ lookupAssoc (CacheState.mk [] [("arxiv_x", .record ⟨"x", 7, some 5⟩)]).storage
        (cacheKeyOf "x") = some (.record ⟨"x", 7, some 5⟩)
    ∧ tsOf (.record ⟨"x", 7, some 5⟩) = some 5
    ∧ 6 - 5 < maxAge
    ∧ (getCachedData ⟨[], [("arxiv_x", .record ⟨"x", 7, some 5⟩)]⟩ 6 "x").1 =
        some (.record ⟨"x", 7, some 5⟩)
    ∧ lookupAssoc (getCachedData ⟨[], [("arxiv_x", .record ⟨"x", 7, some 5⟩)]⟩ 6 "x").2.paperCache
        "x" = some (.record ⟨"x", 7, some 5⟩) := by
  have h := c5_get_cached_data.2.1 ⟨[], [("arxiv_x", .record ⟨"x", 7, some 5⟩)]⟩ 6 "x"
    (.record ⟨"x", 7, some 5⟩) 5 (by decide) (by decide) (by decide) (by decide)
  exact ⟨by decide, by decide, by decide, by decide, h.1, h.2.1⟩

/-! ### Removing lists of keys -/

section FoldlErase

variable {κ α : Type} [DecidableEq κ]

theorem lookup_foldl_eraseKey_none (ks : List κ) (l : List (κ × α)) (k : κ)
    (h : lookupAssoc l k = none) : lookupAssoc (ks.foldl eraseKey l) k = none := by
  induction ks generalizing l with
  | nil => exact h
  | cons k0 rest ih =>
    simp only [List.foldl_cons]
    exact ih _ (lookupAssoc_eraseKey_none l k k0 h)

theorem lookup_foldl_eraseKey_mem (ks : List κ) (l : List (κ × α)) (k : κ)
    (h : k ∈ ks) : lookupAssoc (ks.foldl eraseKey l) k = none := by
  induction ks generalizing l with
  | nil => simp at h
  | cons k0 rest ih =>
    simp only [List.foldl_cons]
    by_cases hk : k ∈ rest
    · exact ih _ hk
    · have hk0 : k = k0 := by
        rcases List.mem_cons.mp h with h2 | h2
        · exact h2
        · exact absurd h2 hk
      subst hk0
      exact lookup_foldl_eraseKey_none rest _ k (lookupAssoc_eraseKey_self l k)

theorem lookup_foldl_eraseKey_not_mem (ks : List κ) (l : List (κ × α)) (k : κ)
    (h : k ∉ ks) : lookupAssoc (ks.foldl eraseKey l) k = lookupAssoc l k := by
  induction ks generalizing l with
  | nil => rfl
  | cons k0 rest ih =>
    simp only [List.foldl_cons]
    have hrest : k ∉ rest := fun h2 => h (List.mem_cons_of_mem k0 h2)
    have hne : k0 ≠ k := fun h2 => h (h2 ▸ List.mem_cons_self k0 rest)
    rw [ih _ hrest, lookupAssoc_eraseKey_ne l k k0 hne]

theorem foldl_eraseKey_keys_take (n : Nat) (l : List (κ × α)) (h : nodupKeys l) :
    ((l.take n).map Prod.fst).foldl eraseKey l = l.drop n := by
  induction n generalizing l with
  | zero => simp
  | succ n ih =>
    cases l with
    | nil => simp
    | cons kv rest =>
      unfold nodupKeys at h
      simp only [List.map_cons, List.nodup_cons] at h
      simp only [List.take_succ_cons, List.map_cons, List.foldl_cons, List.drop_succ_cons]
      rw [eraseKey_cons, if_pos rfl, eraseKey_of_not_mem_keys rest kv.1 h.1]
      exact ih rest h.2

end FoldlErase

/-! ### C10: cache clearing only touches `arxiv_` keys -/

theorem mem_arxivKeys_of_startsWith (storage : List (String × StorageVal)) (k : String)
    (hk : k ∈ storage.map Prod.fst) (hp : startsWithArxiv k = true) :
    k ∈ (arxivEntries storage).map Prod.fst := by
  rw [List.mem_map] at hk
  obtain ⟨kv, hkv, rfl⟩ := hk
  exact List.mem_map_of_mem Prod.fst (List.mem_filter.mpr ⟨hkv, hp⟩)

theorem startsWith_of_mem_arxivKeys (storage : List (String × StorageVal)) (k : String)
    (hk : k ∈ (arxivEntries storage).map Prod.fst) : startsWithArxiv k = true := by
  rw [List.mem_map] at hk
  obtain ⟨kv, hkv, rfl⟩ := hk
  exact (List.mem_filter.mp hkv).2

/-- Claim C10: the popup's cache-clear action removes only persistence keys
prefixed with `arxiv_` (second conjunct); every other persisted key is left
with exactly the binding it had before (first conjunct), so in particular
the `likedAuthors` key survives a clear of a storage holding one cached
paper and the liked-authors list (third conjunct). -/
theorem c10_clear_cache_frame :
    (∀ storage k, startsWithArxiv k = false →
      lookupAssoc (clearCache storage) k = lookupAssoc storage k)
    ∧ (∀ storage k, startsWithArxiv k = true →
      lookupAssoc (clearCache storage) k = none)
    ∧ lookupAssoc
        (clearCache [("arxiv_2501", .record ⟨"2501", 0, some 5⟩),
          ("likedAuthors", .likedAuthors ["Bob Smith"])]) "likedAuthors" =
        some (.likedAuthors ["Bob Smith"]) := by
  refine ⟨?_, ?_, by decide⟩
  · intro storage k hp
    unfold clearCache
    by_cases he : ((arxivEntries storage).map Prod.fst).isEmpty
    · rw [if_pos he]
    · rw [if_neg he]
      refine lookup_foldl_eraseKey_not_mem _ _ _ ?_
      intro hmem
      rw [startsWith_of_mem_arxivKeys storage k hmem] at hp
      exact absurd hp (by simp)
  · intro storage k hp
    unfold clearCache
    by_cases he : ((arxivEntries storage).map Prod.fst).isEmpty
    · rw [if_pos he]
      refine lookupAssoc_eq_none_of_not_mem_keys storage k ?_
      intro hmem
      have := mem_arxivKeys_of_startsWith storage k hmem hp
      rw [List.isEmpty_iff] at he
      rw [he] at this
      simp at this
    · rw [if_neg he]
      by_cases hm : k ∈ (arxivEntries storage).map Prod.fst
      · exact lookup_foldl_eraseKey_mem _ _ _ hm
      · refine lookup_foldl_eraseKey_none _ _ _ ?_
        refine lookupAssoc_eq_none_of_not_mem_keys storage k ?_
        intro hmem
        exact hm (mem_arxivKeys_of_startsWith storage k hmem hp)

/-- Witness for C10: the non-`arxiv_` key `likedAuthors` is untouched on a
concrete storage. -/
theorem c10_clear_cache_frame_witness :
    startsWithArxiv "likedAuthors" = false
    ∧ lookupAssoc
        (clearCache [("arxiv_2501", .record ⟨"2501", 0, some 5⟩),
          ("likedAuthors", .likedAuthors ["Bob Smith"])]) "likedAuthors" =
      lookupAssoc
        [("arxiv_2501", StorageVal.record ⟨"2501", 0, some 5⟩),
          ("likedAuthors", StorageVal.likedAuthors ["Bob Smith"])] "likedAuthors" :=
  ⟨by decide, c10_clear_cache_frame.1
    [("arxiv_2501", .record ⟨"2501", 0, some 5⟩),
      ("likedAuthors", .likedAuthors ["Bob Smith"])] "likedAuthors" (by decide)⟩

/-! ### C6: cache eviction -/

theorem cleanupCache_paperCache_small (st : CacheState) (h : st.paperCache.length ≤ 100) :
    (cleanupCache st).paperCache = st.paperCache := by
  simp [cleanupCache, Nat.not_lt.mpr h]

theorem cleanupCache_paperCache_big (st : CacheState) (hn : nodupKeys st.paperCache)
    (h : 100 < st.paperCache.length) :
    (cleanupCache st).paperCache = st.paperCache.drop 20 := by
  simp only [cleanupCache, if_pos h]
  exact foldl_eraseKey_keys_take 20 st.paperCache hn

theorem cleanupCache_storage_big (st : CacheState)
    (h : 200 < (arxivEntries st.storage).length) :
    (cleanupCache st).storage =
      (((sortedArxiv st).take 50).map Prod.fst).foldl eraseKey st.storage := by
  simp only [cleanupCache, sortedArxiv, if_pos h]

theorem cacheData_paperCache_small (st : CacheState) (pd : PaperData) (now : Nat)
    (h : (setAssoc st.paperCache pd.id (.record pd)).length ≤ 100) :
    (cacheData st pd now).paperCache = setAssoc st.paperCache pd.id (.record pd) := by
  unfold cacheData
  exact cleanupCache_paperCache_small _ h

theorem cacheData_paperCache_big (st : CacheState) (pd : PaperData) (now : Nat)
    (hn : nodupKeys (setAssoc st.paperCache pd.id (.record pd)))
    (h : 100 < (setAssoc st.paperCache pd.id (.record pd)).length) :
    (cacheData st pd now).paperCache = (setAssoc st.paperCache pd.id (.record pd)).drop 20 := by
  unfold cacheData
  exact cleanupCache_paperCache_big _ hn h

theorem map_fst_entry (l : List String) :
    l.map (Prod.fst ∘ fun id => (id, StorageVal.record ⟨id, 0, none⟩)) = l := by
  induction l with
  | nil => rfl
  | cons a t ih => simp [ih]

theorem sortedArxiv_pairwise (st : CacheState) :
    List.Pairwise (fun a b => decide (tsKey a ≤ tsKey b) = true) (sortedArxiv st) := by
  unfold sortedArxiv
  refine List.sorted_mergeSort ?_ ?_ (arxivEntries st.storage)
  · intro a b c hab hbc
    simp only [decide_eq_true_eq] at hab hbc ⊢
    omega
  · intro a b
    rcases Nat.le_total (tsKey a) (tsKey b) with h | h <;> simp [h]

theorem insertRun_fill (now : Nat) : ∀ (ids : List String) (st : CacheState),
    nodupKeys st.paperCache → (∀ id ∈ ids, id ∉ st.paperCache.map Prod.fst) →
    ids.Nodup → st.paperCache.length + ids.length ≤ 100 →
    (ids.foldl (fun st2 id => cacheData st2 ⟨id, 0, none⟩ now) st).paperCache =
      st.paperCache ++ ids.map (fun id => (id, StorageVal.record ⟨id, 0, none⟩)) := by
  intro ids
  induction ids with
  | nil => intro st _ _ _ _; simp
  | cons id rest ih =>
    intro st hn hf hnd hlen
    simp only [List.foldl_cons]
    have hfresh : id ∉ st.paperCache.map Prod.fst := hf id (List.mem_cons_self id rest)
    have hset : setAssoc st.paperCache id (.record ⟨id, 0, none⟩) =
        st.paperCache ++ [(id, .record ⟨id, 0, none⟩)] :=
      setAssoc_of_not_mem_keys _ _ _ hfresh
    have hlen1 : (setAssoc st.paperCache id (StorageVal.record ⟨id, 0, none⟩)).length ≤ 100 := by
      rw [hset]
      simp only [List.length_append, List.length_singleton]
      simp only [List.length_cons] at hlen
      omega
    have hcc : (cacheData st ⟨id, 0, none⟩ now).paperCache =
        st.paperCache ++ [(id, .record ⟨id, 0, none⟩)] := by
      rw [cacheData_paperCache_small st ⟨id, 0, none⟩ now hlen1]
      exact hset
    have hkeys : (cacheData st ⟨id, 0, none⟩ now).paperCache.map Prod.fst =
        st.paperCache.map Prod.fst ++ [id] := by
      rw [hcc]
      simp
    have hnd2 : rest.Nodup := (List.nodup_cons.mp hnd).2
    have hid2 : id ∉ rest := (List.nodup_cons.mp hnd).1
    have h1 := ih (cacheData st ⟨id, 0, none⟩ now)
      (by
        unfold nodupKeys
        rw [hkeys]
        rw [List.nodup_append]
        exact ⟨hn, List.nodup_singleton id, by
          intro a ha hb
          simp only [List.mem_singleton] at hb
          subst hb
          exact hfresh ha⟩)
      (by
        intro id2 h2
        rw [hkeys]
        rw [List.mem_append]
        rintro (h3 | h3)
        · exact hf id2 (List.mem_cons_of_mem id h2) h3
        · simp only [List.mem_singleton] at h3
          subst h3
          exact hid2 h2)
      hnd2
      (by
        rw [hcc]
        simp only [List.length_append, List.length_singleton]
        simp only [List.length_cons] at hlen
        omega)
    rw [h1, hcc]
    simp

/-- Claim C6: after a put's cleanup pass, an over-full fast tier (more than 100
entries) loses exactly its 20 first-inserted entries (second conjunct), a
tier of at most 100 entries is untouched (first conjunct); an over-full
durable tier (more than 200 `arxiv_` entries) has the 50 entries at the
front of the timestamp-sorted order — whose timestamps are lower bounds for
all surviving sorted entries — removed (third conjunct).  Inserting 101
records sequentially leaves the fast tier with at most 100 entries and none
of the 20 earliest-inserted ids (fourth conjunct). -/
theorem c6_cache_eviction :
    (∀ st : CacheState, st.paperCache.length ≤ 100 →
      (cleanupCache st).paperCache = st.paperCache)
    ∧ (∀ st : CacheState, nodupKeys st.paperCache → 100 < st.paperCache.length →
      (cleanupCache st).paperCache = st.paperCache.drop 20)
    ∧ (∀ st : CacheState, 200 < (arxivEntries st.storage).length →
      (∀ x ∈ (sortedArxiv st).take 50, ∀ y ∈ (sortedArxiv st).drop 50, tsKey x ≤ tsKey y)
      ∧ (∀ k ∈ ((sortedArxiv st).take 50).map Prod.fst,
          lookupAssoc (cleanupCache st).storage k = none))
    ∧ (∀ (ids : List String) (now : Nat), ids.Nodup → ids.length = 101 →
      (insertRun ids now).paperCache.length ≤ 100
      ∧ ∀ id ∈ ids.take 20, lookupAssoc (insertRun ids now).paperCache id = none) := by
  refine ⟨cleanupCache_paperCache_small, cleanupCache_paperCache_big, ?_, ?_⟩
  · intro st h
    constructor
    · have hp := sortedArxiv_pairwise st
      have hsplit := List.take_append_drop 50 (sortedArxiv st)
      rw [← hsplit] at hp
      rcases List.pairwise_append.mp hp with ⟨_, _, hcross⟩
      intro x hx y hy
      have := hcross x hx y hy
      simpa using this
    · intro k hk
      rw [cleanupCache_storage_big st h]
      exact lookup_foldl_eraseKey_mem _ _ _ hk
  · intro ids now hnd hlen
    have hsplit : ids.take 100 ++ ids.drop 100 = ids := List.take_append_drop 100 ids
    have hlen100 : (ids.take 100).length = 100 := by
      rw [List.length_take]
      omega
    have hdroplen : (ids.drop 100).length = 1 := by
      rw [List.length_drop]
      omega
    obtain ⟨x, rest, hx⟩ := List.exists_cons_of_ne_nil
      (show ids.drop 100 ≠ [] by
        intro h2
        rw [h2] at hdroplen
        simp at hdroplen)
    have hrest : rest = [] := by
      rw [hx] at hdroplen
      simp only [List.length_cons] at hdroplen
      exact List.eq_nil_of_length_eq_zero (by omega)
    subst hrest
    have hfold : insertRun ids now =
        cacheData ((ids.take 100).foldl (fun st2 id => cacheData st2 ⟨id, 0, none⟩ now)
          ⟨[], []⟩) ⟨x, 0, none⟩ now := by
      unfold insertRun
      conv_lhs => rw [← hsplit]
      rw [List.foldl_append, hx]
      simp
    have hnd100 : (ids.take 100).Nodup := (List.take_sublist 100 ids).nodup hnd
    have hst1 : ((ids.take 100).foldl (fun st2 id => cacheData st2 ⟨id, 0, none⟩ now)
        ⟨[], []⟩ : CacheState).paperCache =
        (ids.take 100).map (fun id => (id, StorageVal.record ⟨id, 0, none⟩)) := by
      have := insertRun_fill now (ids.take 100) ⟨[], []⟩
        (by simp [nodupKeys]) (by simp) hnd100 (by simp [hlen100])
      simpa using this
    have hkeys1 : ((ids.take 100).foldl (fun st2 id => cacheData st2 ⟨id, 0, none⟩ now)
        ⟨[], []⟩ : CacheState).paperCache.map Prod.fst = ids.take 100 := by
      rw [hst1, List.map_map, map_fst_entry]
    have hxmem : x ∈ ids.drop 100 := by
      rw [hx]
      exact List.mem_cons_self x []
    have hxfresh : x ∉ ids.take 100 := by
      intro h2
      exact List.disjoint_take_drop hnd (Nat.le_refl 100) h2 hxmem
    have hset : setAssoc ((ids.take 100).foldl (fun st2 id => cacheData st2 ⟨id, 0, none⟩ now)
        ⟨[], []⟩ : CacheState).paperCache x (.record ⟨x, 0, none⟩) =
        (ids.take 100 ++ [x]).map (fun id => (id, StorageVal.record ⟨id, 0, none⟩)) := by
      rw [setAssoc_of_not_mem_keys _ _ _ (by rw [hkeys1]; exact hxfresh), hst1]
      simp
    have hids_eq : ids.take 100 ++ [x] = ids := by
      rw [← hx]
      exact hsplit
    have hnodP : nodupKeys (setAssoc ((ids.take 100).foldl
        (fun st2 id => cacheData st2 ⟨id, 0, none⟩ now) ⟨[], []⟩ : CacheState).paperCache x
        (.record ⟨x, 0, none⟩)) := by
      unfold nodupKeys
      rw [hset, List.map_map, map_fst_entry, hids_eq]
      exact hnd
    have hlenP : 100 < (setAssoc ((ids.take 100).foldl
        (fun st2 id => cacheData st2 ⟨id, 0, none⟩ now) ⟨[], []⟩ : CacheState).paperCache x
        (.record ⟨x, 0, none⟩)).length := by
      rw [hset, List.length_map, List.length_append, hlen100]
      simp
    have hfinal : (insertRun ids now).paperCache =
        ((ids.take 100 ++ [x]).map (fun id => (id, StorageVal.record ⟨id, 0, none⟩))).drop 20 := by
      rw [hfold]
      rw [cacheData_paperCache_big _ ⟨x, 0, none⟩ now hnodP hlenP]
      rw [hset]
    have hkeysfinal : (insertRun ids now).paperCache.map Prod.fst = ids.drop 20 := by
      rw [hfinal, ← List.map_drop, List.map_map, map_fst_entry, hids_eq]
    constructor
    · rw [hfinal, List.length_drop, List.length_map, List.length_append, hlen100]
      simp
    · intro id hid
      refine lookupAssoc_eq_none_of_not_mem_keys _ _ ?_
      rw [hkeysfinal]
      intro h2
      exact List.disjoint_take_drop hnd (Nat.le_refl 20) hid h2

/-- Witness for C6 at a concrete over-full fast tier and a concrete 101-id
insertion run. -/
theorem c6_cache_eviction_witness :
    nodupKeys ((List.range 101).map (fun i => (toString i, StorageVal.record ⟨toString i, 0, none⟩)))
    ∧ 100 < ((List.range 101).map
        (fun i => (toString i, StorageVal.record ⟨toString i, 0, none⟩))).length
    ∧ (cleanupCache ⟨(List.range 101).map
        (fun i => (toString i, StorageVal.record ⟨toString i, 0, none⟩)), []⟩).paperCache =
      ((List.range 101).map
        (fun i => (toString i, StorageVal.record ⟨toString i, 0, none⟩))).drop 20 := by
  refine ⟨by unfold nodupKeys; decide, by decide, ?_⟩
  exact c6_cache_eviction.2.1 ⟨_, []⟩ (by unfold nodupKeys; decide) (by decide)

/-! ### Grouping-coordinator unfolding lemmas -/

theorem assignFuel_create (n : Nat) (w : World) (tabId : Nat) (author : String)
    (h : lookupAssoc w.authorGroups author = none) :
    assignFuel (n + 1) w tabId author =
      { tabAuthors := setAssoc w.tabAuthors tabId author
        authorGroups := setAssoc w.authorGroups author w.nextGroupId
        groups := setAssoc (eraseTabFromGroups w.groups tabId) w.nextGroupId [tabId]
        nextGroupId := w.nextGroupId + 1 } := by
  obtain ⟨ta, ag, gr, ng⟩ := w
  simp only [assignFuel]
  rw [h]

theorem assignFuel_add (n : Nat) (w : World) (tabId : Nat) (author : String)
    (gid : Nat) (members : List Nat)
    (h2 : lookupAssoc w.authorGroups author = some gid)
    (h3 : lookupAssoc w.groups gid = some members) :
    assignFuel (n + 1) w tabId author =
      { tabAuthors := setAssoc w.tabAuthors tabId author
        authorGroups := w.authorGroups
        groups := setAssoc (eraseTabFromGroups w.groups tabId) gid
          (members.filter (fun x => x ≠ tabId) ++ [tabId])
        nextGroupId := w.nextGroupId } := by
  obtain ⟨ta, ag, gr, ng⟩ := w
  dsimp only at h2 h3
  simp only [assignFuel]
  rw [h2]
  dsimp only
  rw [h3]

theorem assignFuel_stale (n : Nat) (w : World) (tabId : Nat) (author : String) (gid : Nat)
    (h2 : lookupAssoc w.authorGroups author = some gid)
    (h3 : lookupAssoc w.groups gid = none) :
    assignFuel (n + 1) w tabId author =
      assignFuel n
        { tabAuthors := setAssoc w.tabAuthors tabId author
          authorGroups := eraseKey w.authorGroups author
          groups := w.groups
          nextGroupId := w.nextGroupId } tabId author := by
  obtain ⟨ta, ag, gr, ng⟩ := w
  dsimp only at h2 h3
  simp only [assignFuel]
  rw [h2]
  dsimp only
  rw [h3]

/-! ### C7: tab-removal cleanup -/

theorem handleTabRemoval_clears_binding (w : World) (t : Nat) :
    lookupAssoc (handleTabRemoval w t).tabAuthors t = none := by
  obtain ⟨ta, ag, gr, ng⟩ := w
  unfold handleTabRemoval
  cases h : lookupAssoc ta t with
  | none => exact h
  | some author =>
    dsimp only
    cases h2 : lookupAssoc ag author with
    | none => exact lookupAssoc_eraseKey_self _ _
    | some gid =>
      dsimp only
      cases h3 : lookupAssoc gr gid with
      | none => exact lookupAssoc_eraseKey_self _ _
      | some members =>
        dsimp only
        by_cases h4 : members.length = 0
        · rw [if_pos h4]
          exact lookupAssoc_eraseKey_self _ _
        · rw [if_neg h4]
          exact lookupAssoc_eraseKey_self _ _

/-- Claim C7: `onTabRemoved(tabId)` always deletes the tab-author binding of
the removed tab (first conjunct); when the removed tab's author has a bound
group that is left with zero member tabs, the author-group binding is
deleted too (second conjunct); and on the spec's concrete scenario, after
assigning tabs 1 and 2 to "Bob Smith" and removing tab 1, the binding
survives, while the subsequent removal of tab 2 deletes it (third
conjunct). -/
theorem c7_tab_removal_cleanup :
    (∀ (w : World) (t : Nat), lookupAssoc (onTabRemoved w t).tabAuthors t = none)
    ∧ (∀ (w : World) (t : Nat) (author : String) (gid : Nat),
        lookupAssoc w.tabAuthors t = some author →
        lookupAssoc w.authorGroups author = some gid →
        lookupAssoc (eraseTabFromGroups w.groups t) gid = some [] →
        lookupAssoc (onTabRemoved w t).authorGroups author = none)
    ∧ lookupAssoc (onTabRemoved
        (manageAuthorGrouping (manageAuthorGrouping ⟨[], [], [], 1⟩ 1 (some "Bob Smith"))
          2 (some "Bob Smith")) 1).authorGroups "Bob Smith" = some 1
    ∧ lookupAssoc (onTabRemoved (onTabRemoved
        (manageAuthorGrouping (manageAuthorGrouping ⟨[], [], [], 1⟩ 1 (some "Bob Smith"))
          2 (some "Bob Smith")) 1) 2).authorGroups "Bob Smith" = none := by
  refine ⟨?_, ?_, by decide, by decide⟩
  · intro w t
    exact handleTabRemoval_clears_binding (chromeRemoveTab w t) t
  · intro w t author gid h1 h2 h3
    obtain ⟨ta, ag, gr, ng⟩ := w
    unfold onTabRemoved chromeRemoveTab handleTabRemoval
    dsimp only at h1 h2 h3 ⊢
    rw [h1]
    dsimp only
    rw [h2]
    dsimp only
    rw [h3]
    dsimp only [List.length_nil]
    rw [if_pos rfl]
    exact lookupAssoc_eraseKey_self _ _

/-- Witness for C7's hypothesis-bearing conjunct: removing the sole tab of a
bound group deletes the binding on a concrete world. -/
theorem c7_tab_removal_cleanup_witness :
    lookupAssoc (World.mk [(1, "A")] [("A", 4)] [(4, [1])] 5).tabAuthors 1 = some "A"
    ∧ lookupAssoc (World.mk [(1, "A")] [("A", 4)] [(4, [1])] 5).authorGroups "A" = some 4
    ∧ lookupAssoc (eraseTabFromGroups (World.mk [(1, "A")] [("A", 4)] [(4, [1])] 5).groups 1) 4 =
        some []
    ∧ lookupAssoc (onTabRemoved (World.mk [(1, "A")] [("A", 4)] [(4, [1])] 5) 1).authorGroups
        "A" = none :=
  ⟨by decide, by decide, by decide,
    c7_tab_removal_cleanup.2.1 (World.mk [(1, "A")] [("A", 4)] [(4, [1])] 5) 1 "A" 4
      (by decide) (by decide) (by decide)⟩

/-! ### C8: stale-group recovery -/

/-- Claim C8: when `assign` finds a binding whose underlying group no longer
exists, it deletes the stale binding and retries creation exactly once —
extra retry fuel changes nothing (first conjunct) — and transparently ends
with a fresh replacement group containing the tab, the binding updated to
it (second and third conjuncts); being a total function, it raises nothing. -/
theorem c8_stale_group_recovery :
    ∀ (w : World) (tabId : Nat) (author : String) (gid : Nat), author ≠ "" →
      lookupAssoc w.authorGroups author = some gid →
      lookupAssoc w.groups gid = none →
      (∀ fuel : Nat, assignFuel (fuel + 2) w tabId author = assignFuel 2 w tabId author)
      ∧ lookupAssoc (manageAuthorGrouping w tabId (some author)).authorGroups author =
          some w.nextGroupId
      ∧ lookupAssoc (manageAuthorGrouping w tabId (some author)).groups w.nextGroupId =
          some [tabId] := by
  intro w tabId author gid ha h2 h3
  have hw2 : lookupAssoc (eraseKey w.authorGroups author) author = none :=
    lookupAssoc_eraseKey_self _ _
  have hrun : ∀ n : Nat, assignFuel (n + 2) w tabId author =
      { tabAuthors := setAssoc (setAssoc w.tabAuthors tabId author) tabId author
        authorGroups := setAssoc (eraseKey w.authorGroups author) author w.nextGroupId
        groups := setAssoc (eraseTabFromGroups w.groups tabId) w.nextGroupId [tabId]
        nextGroupId := w.nextGroupId + 1 } := by
    intro n
    rw [show n + 2 = (n + 1) + 1 from rfl, assignFuel_stale (n + 1) w tabId author gid h2 h3]
    rw [assignFuel_create n _ tabId author hw2]
  constructor
  · intro fuel
    rw [hrun fuel, show (2 : Nat) = 0 + 2 from rfl, hrun 0]
  · have hmag : manageAuthorGrouping w tabId (some author) =
        assignFuel 2 w tabId author := by
      simp [manageAuthorGrouping, ha]
    rw [hmag, show (2 : Nat) = 0 + 2 from rfl, hrun 0]
    exact ⟨lookupAssoc_setAssoc_self _ _ _, lookupAssoc_setAssoc_self _ _ _⟩

/-- Witness for C8 on a concrete world with a stale binding. -/
theorem c8_stale_group_recovery_witness :
    ("A" : String) ≠ ""
    ∧ lookupAssoc (World.mk [] [("A", 5)] [] 7).authorGroups "A" = some 5
    ∧ lookupAssoc (World.mk [] [("A", 5)] [] 7).groups 5 = none
    ∧ lookupAssoc (manageAuthorGrouping (World.mk [] [("A", 5)] [] 7) 3 (some "A")).authorGroups
        "A" = some 7
    ∧ lookupAssoc (manageAuthorGrouping (World.mk [] [("A", 5)] [] 7) 3 (some "A")).groups 7 =
        some [3] := by
  have h := c8_stale_group_recovery (World.mk [] [("A", 5)] [] 7) 3 "A" 5
    (by decide) (by decide) (by decide)
  exact ⟨by decide, by decide, by decide, h.2.1, h.2.2⟩

/-! ### C9: assignment idempotence -/

theorem assign_establishes (w : World) (t : Nat) (a : String) (ha : a ≠ "") :
    ∃ (gid : Nat) (ms : List Nat),
      lookupAssoc (manageAuthorGrouping w t (some a)).authorGroups a = some gid
      ∧ lookupAssoc (manageAuthorGrouping w t (some a)).groups gid = some (ms ++ [t])
      ∧ t ∉ ms
      ∧ (nodupKeys w.authorGroups →
          nodupKeys (manageAuthorGrouping w t (some a)).authorGroups) := by
  have hmag : manageAuthorGrouping w t (some a) = assignFuel 2 w t a := by
    simp [manageAuthorGrouping, ha]
  rw [hmag]
  cases h2 : lookupAssoc w.authorGroups a with
  | none =>
    rw [show (2 : Nat) = 1 + 1 from rfl, assignFuel_create 1 w t a h2]
    refine ⟨w.nextGroupId, [], lookupAssoc_setAssoc_self _ _ _,
      by simpa using lookupAssoc_setAssoc_self _ _ _, by simp, ?_⟩
    intro hn
    exact nodupKeys_setAssoc _ _ _ hn
  | some gid =>
    cases h3 : lookupAssoc w.groups gid with
    | some members =>
      rw [show (2 : Nat) = 1 + 1 from rfl, assignFuel_add 1 w t a gid members h2 h3]
      refine ⟨gid, members.filter (fun x => x ≠ t), h2,
        lookupAssoc_setAssoc_self _ _ _, ?_, fun hn => hn⟩
      intro hmem
      have := List.mem_filter.mp hmem
      simp at this
    | none =>
      rw [show (2 : Nat) = 1 + 1 from rfl, assignFuel_stale 1 w t a gid h2 h3]
      rw [show (1 : Nat) = 0 + 1 from rfl,
        assignFuel_create 0 _ t a (lookupAssoc_eraseKey_self _ _)]
      refine ⟨w.nextGroupId, [], lookupAssoc_setAssoc_self _ _ _,
        by simpa using lookupAssoc_setAssoc_self _ _ _, by simp, ?_⟩
      intro hn
      exact nodupKeys_setAssoc _ _ _ (nodupKeys_eraseKey _ _ hn)

theorem assign_on_established (w : World) (t : Nat) (a : String) (gid : Nat)
    (ms : List Nat) (ha : a ≠ "") (h2 : lookupAssoc w.authorGroups a = some gid)
    (h3 : lookupAssoc w.groups gid = some ms) :
    (manageAuthorGrouping w t (some a)).authorGroups = w.authorGroups
    ∧ lookupAssoc (manageAuthorGrouping w t (some a)).groups gid =
        some (ms.filter (fun x => x ≠ t) ++ [t]) := by
  have hmag : manageAuthorGrouping w t (some a) = assignFuel 2 w t a := by
    simp [manageAuthorGrouping, ha]
  rw [hmag, show (2 : Nat) = 1 + 1 from rfl, assignFuel_add 1 w t a gid ms h2 h3]
  exact ⟨rfl, lookupAssoc_setAssoc_self _ _ _⟩

/-- Claim C9: two consecutive `assign` calls with the same tab and author
leave exactly one author-group binding for that author, and the tab appears
exactly once in the membership of the bound group. -/
theorem c9_assign_idempotent :
    ∀ (w : World) (tabId : Nat) (author : String), author ≠ "" →
      nodupKeys w.authorGroups →
      countKey (assignTwice w tabId author).authorGroups author = 1
      ∧ ((lookupAssoc (assignTwice w tabId author).authorGroups author).bind
          (lookupAssoc (assignTwice w tabId author).groups)).map
          (fun ms => ms.count tabId) = some 1 := by
  intro w t a ha hn
  obtain ⟨gid, ms, h1, h2, h3, h4⟩ := assign_establishes w t a ha
  obtain ⟨hag, hgr⟩ :=
    assign_on_established (manageAuthorGrouping w t (some a)) t a gid (ms ++ [t]) ha h1 h2
  have hunfold : assignTwice w t a =
      manageAuthorGrouping (manageAuthorGrouping w t (some a)) t (some a) := rfl
  constructor
  · rw [hunfold]
    unfold countKey
    have hckeq : (manageAuthorGrouping (manageAuthorGrouping w t (some a)) t
        (some a)).authorGroups = (manageAuthorGrouping w t (some a)).authorGroups := hag
    rw [hckeq]
    have := countKey_eq_one_of_nodup (manageAuthorGrouping w t (some a)).authorGroups a
      (h4 hn) (by rw [h1]; rfl)
    unfold countKey at this
    exact this
  · rw [hunfold, hag, h1]
    rw [Option.some_bind]
    rw [hgr]
    rw [Option.map_some']
    congr 1
    have hfil : (ms ++ [t]).filter (fun x => x ≠ t) = ms.filter (fun x => x ≠ t) := by
      simp [List.filter_append]
    rw [hfil, List.count_append]
    have hzero : (ms.filter (fun x => x ≠ t)).count t = 0 := by
      rw [List.count_eq_zero]
      intro hmem
      have := List.mem_filter.mp hmem
      simp at this
    rw [hzero]
    simp

/-- Witness for C9 on a concrete world. -/
theorem c9_assign_idempotent_witness :
    ("A" : String) ≠ ""
    ∧ nodupKeys (World.mk [] [] [] 1).authorGroups
    ∧ countKey (assignTwice (World.mk [] [] [] 1) 3 "A").authorGroups "A" = 1
    ∧ ((lookupAssoc (assignTwice (World.mk [] [] [] 1) 3 "A").authorGroups "A").bind
        (lookupAssoc (assignTwice (World.mk [] [] [] 1) 3 "A").groups)).map
        (fun ms => ms.count 3) = some 1 := by
  have h := c9_assign_idempotent (World.mk [] [] [] 1) 3 "A" (by decide)
    (by unfold nodupKeys; decide)
  exact ⟨by decide, by unfold nodupKeys; decide, h.1, h.2⟩

end ArxivTabEnhancer
